import Mathlib

/- Verification of the decode-time generation core of EE-LLM:
   megatron/text_generation/generation.py and
   megatron/text_generation/forward_step.py, shallowly embedded in Lean.

   Tensors are embedded as lists: a token batch is a list of rows, a row is a
   list of token ids.  The neural forward computation is abstracted by oracle
   functions (a sampler giving the token chosen at each step for each row, a
   per-row logits function for the micro-batched path), matching the spec's
   treatment of Model as an opaque callable.  Floating point sampling
   parameters appear only through their comparisons with zero and are embedded
   as rationals. -/

namespace EELLM

/-- Token ids. -/
abbrev Token := Nat

/-- One batch row: the fixed-capacity token buffer of one request. -/
abbrev Row := List Token

/-- The fields of InferenceParams (the DecodeState) that the generation core
reads and writes.  The per-layer KV cache itself is owned by the model and is
out of scope. -/
structure InferenceParams where
  sequence_len_offset : Nat
  batch_size_offset : Nat
  has_early_exited : Bool
  prev_has_early_exited : Bool
  is_first_step : Bool
deriving Repr, DecidableEq

/-- Python slice row[full_exit_context_length:context_length] for one row of
the token tensor: the window of tokens forwarded this step
(generation.py line 204). -/
def tokens2use (row : Row) (full_exit_context_length context_length : Nat) : Row :=
  (row.take context_length).drop full_exit_context_length

/-- Controller bookkeeping carried across steps of
generate_tokens_probs_and_return_on_first_stage. -/
structure GenStepCtx where
  prev_context_length : Nat
  full_exit_context_length : Nat
  params : InferenceParams
deriving Repr, DecidableEq

/-- End-of-step bookkeeping of generate_tokens_probs_and_return_on_first_stage
(generation.py lines 283-289), for the forward dispatch this controller can
complete a step with: _no_pipelining_forward_step, whose own offset advance is
commented out (forward_step.py line 120), so the only write to
sequence_len_offset in the step is the controller's.  prev_context_length is
set to context_length; when the step saw no early exit the fully-committed
position catches up and sequence_len_offset grows by the forwarded window
length; the per-step early-exit flag and the first-step flag are then
cleared. -/
def genStepAdvance (row : Row) (context_length : Nat) (c : GenStepCtx) : GenStepCtx :=
  let window := tokens2use row c.full_exit_context_length context_length
  let c1 := { c with prev_context_length := context_length }
  let c2 :=
    if c1.params.has_early_exited = false then
      { c1 with
          full_exit_context_length := c1.prev_context_length,
          params := { c1.params with
            sequence_len_offset := c1.params.sequence_len_offset + window.length } }
    else c1
  { c2 with params := { c2.params with has_early_exited := false, is_first_step := false } }

/-- Call-scoped oracle data of one generation call: the abstract sampler
(token chosen on the last stage at each context length for each row), the
prompt lengths, the stop-token list and the termination id. -/
structure GenEnv where
  sampler : Nat → Nat → Token
  lengths : List Nat
  stop_tokens : List Token
  termination_id : Token

/-- Whether row r hits a stop condition at the given context length
(generation.py lines 296-303): with a nonempty stop_tokens list the sampled
token is tested for membership in it, otherwise for equality with
termination_id; either way conjoined with the row's started flag
(prompt length at most the context length). -/
def doneTokenAt (E : GenEnv) (context_length r : Nat) : Bool :=
  (if 0 < E.stop_tokens.length then decide (E.sampler context_length r ∈ E.stop_tokens)
   else decide (E.sampler context_length r = E.termination_id))
  && decide (E.lengths.getD r 0 ≤ context_length)

/-- The state threaded through the decoding loop of
generate_tokens_probs_and_return_on_first_stage, as seen on the last pipeline
stage, with empty req_ids (under which the early-exit reconciliation block of
lines 242-259 is skipped, since both sides of its guard are zero).
forward_count counts forward_step invocations. -/
structure GenLoopState where
  tokens : List Row
  is_generation_done : List Bool
  generated_sequence_lengths : List Nat
  forward_count : Nat
deriving Repr, DecidableEq

/-- One loop-body state update at a given context length (generation.py lines
210-308, last stage, no early exit): the forward step runs, started rows
receive the sampled token at position context_length, rows hitting a stop
condition for the first time record generated length context_length + 1, and
the per-row done flags accumulate. -/
def genStepState (E : GenEnv) (context_length : Nat) (st : GenLoopState) : GenLoopState where
  tokens := (List.range st.tokens.length).map (fun r =>
    if E.lengths.getD r 0 ≤ context_length then
      (st.tokens.getD r []).set context_length (E.sampler context_length r)
    else st.tokens.getD r [])
  is_generation_done := (List.range st.is_generation_done.length).map (fun r =>
    st.is_generation_done.getD r false || doneTokenAt E context_length r)
  generated_sequence_lengths := (List.range st.generated_sequence_lengths.length).map (fun r =>
    if doneTokenAt E context_length r && !(st.is_generation_done.getD r false) then
      context_length + 1
    else st.generated_sequence_lengths.getD r 0)
  forward_count := st.forward_count + 1

/-- Iterated loop-body updates for the steps [start, start + n). -/
def foldSteps (E : GenEnv) (start n : Nat) (st : GenLoopState) : GenLoopState :=
  (List.range' start n).foldl (fun s c => genStepState E c s) st

/-- The decoding loop of generate_tokens_probs_and_return_on_first_stage
(generation.py lines 201-313), fuel-indexed with fuel = max_sequence_length -
context_length at entry.  Each iteration the forward step runs first; then the
sampling precondition (modelled from the spec, see generateModel) may abort the
call; otherwise the state updates and, when stop-token early termination is
enabled and every row's done flag is set, the loop breaks.  Returns the final
state, the final value of context_length, and the abort message if any. -/
def genLoopFuel (E : GenEnv) (use_stop_tokens_for_early_termination : Bool)
    (top_k : Nat) (top_p : ℚ) :
    Nat → Nat → GenLoopState → GenLoopState × Nat × Option String
  | 0, context_length, st => (st, context_length - 1, none)
  | fuel + 1, context_length, st =>
    if 0 < top_k ∧ 0 < top_p then
      ({ st with forward_count := st.forward_count + 1 }, context_length,
        some "cannot have both top-k and top-p samplings")
    else
      let st1 := genStepState E context_length st
      if use_stop_tokens_for_early_termination && st1.is_generation_done.all (fun d => d) then
        (st1, context_length, none)
      else
        genLoopFuel E use_stop_tokens_for_early_termination top_k top_p
          fuel (context_length + 1) st1

/-- Pre-loop state of generate_tokens_probs_and_return_on_first_stage
(generation.py lines 184-190): no row done, every generated length
initialized to max_sequence_length. -/
def initGenState (tokens0 : List Row) (batch_size max_sequence_length : Nat) : GenLoopState :=
  ⟨tokens0, List.replicate batch_size false,
    List.replicate batch_size max_sequence_length, 0⟩

/-- Result of one whole generation call together with the number of forward
steps that were performed before it returned or raised. -/
structure GenCallResult where
  result : Except String (GenLoopState × Nat)
  forward_steps : Nat
deriving Repr

/-- Whether a generation call raised. -/
def GenCallResult.isError (r : GenCallResult) : Bool :=
  match r.result with
  | .error _ => true
  | .ok _ => false

/-- Model of a generate_tokens_probs_and_return_on_first_stage call
(generation.py lines 139-313): the two precondition checks of lines 143-147
run before anything else; then the decoding loop runs from the minimum prompt
length.  The sampling-parameter rejection inside the loop is modelled from the
spec (sampling.py is not among the sources): top_k and top_p are mutually
exclusive by precondition and sample raises when both are nonzero, which the
loop model surfaces at the first sampling call. -/
def generateModel (E : GenEnv) (tokens0 : List Row)
    (use_stop_tokens_for_early_termination : Bool)
    (top_k : Nat) (top_p : ℚ)
    (batch_size max_sequence_length max_position_embeddings max_tokens_to_oom : Nat) :
    GenCallResult :=
  if max_position_embeddings < max_sequence_length then
    ⟨.error "Length of prompt + tokens_to_generate longer than allowed", 0⟩
  else if max_tokens_to_oom < max_sequence_length * batch_size then
    ⟨.error "Too many tokens.", 0⟩
  else
    let min_prompt_length := (E.lengths.min?).getD 0
    match genLoopFuel E use_stop_tokens_for_early_termination top_k top_p
        (max_sequence_length - min_prompt_length) min_prompt_length
        (initGenState tokens0 batch_size max_sequence_length) with
    | (st, _, some msg) => ⟨.error msg, st.forward_count⟩
    | (st, ctx, none) => ⟨.ok (st, ctx), st.forward_count⟩

/-- All-rows done flag after the steps [min_prompt, c] have been processed
from the initial state: the quantity torch.all(is_generation_done) tested at
the end of the step with context_length = c. -/
def allDoneAfterStep (E : GenEnv) (tokens0 : List Row)
    (batch_size max_sequence_length min_prompt c : Nat) : Bool :=
  (foldSteps E min_prompt (c + 1 - min_prompt)
      (initGenState tokens0 batch_size max_sequence_length)).is_generation_done.all
    (fun d => d)

/-- First step in [start, start + n) at which row r hits a stop condition. -/
def rowFirstStopStep (E : GenEnv) (start n r : Nat) : Option Nat :=
  (List.range' start n).find? (fun c => doneTokenAt E c r)

/-- Python dict assignment buffered_tokens[req_id] = row on an
insertion-ordered association list: overwrite in place if the key exists,
append otherwise. -/
def bufInsert (buffered : List (Nat × Row)) (id : Nat) (row : Row) : List (Nat × Row) :=
  if buffered.any (fun p => p.1 = id) then
    buffered.map (fun p => if p.1 = id then (id, row) else p)
  else buffered ++ [(id, row)]

/-- Python dict lookup buffered_tokens[req_id]. -/
def bufLookup (buffered : List (Nat × Row)) (id : Nat) : Option Row :=
  (buffered.find? (fun p => p.1 = id)).map (fun p => p.2)

/-- The early-exit reconciliation block of
generate_tokens_probs_and_return_on_first_stage (generation.py lines 242-258):
exited_idx collects the positions of active requests whose id is in this
step's exited set; when not every active request exited, the active tensor is
restricted to the exited rows, each non-exited row is stored in
buffered_tokens under its request id, and every id in the exited set that is
not an active request id has its buffered row appended; when every active
request exited the whole block is skipped.  The lookup buffered_tokens[req_id]
is embedded with default []; the theorems assume the key is present, as the
Python code does. -/
def reconcile (req_ids exited_req_ids : List Nat) (tokens : List Row)
    (buffered : List (Nat × Row)) : List Row × List (Nat × Row) :=
  let exited_idx := (List.range req_ids.length).filter
    (fun i => decide (req_ids.getD i 0 ∈ exited_req_ids))
  if exited_idx.length ≠ req_ids.length then
    let exited_tokens := exited_idx.map (fun i => tokens.getD i [])
    let buffered1 := (List.range req_ids.length).foldl
      (fun b i =>
        if req_ids.getD i 0 ∈ exited_req_ids then b
        else bufInsert b (req_ids.getD i 0) (tokens.getD i []))
      buffered
    let req_ids_to_be_appended := exited_req_ids.filter (fun id => decide (id ∉ req_ids))
    (exited_tokens ++ req_ids_to_be_appended.map (fun id => (bufLookup buffered1 id).getD []),
      buffered1)
  else (tokens, buffered)

/-- Model of torch roll(-n, dims=0) on a row: left cyclic rotation by n. -/
def rollLeft (n : Nat) (row : List α) : List α := row.rotate n

/-- Post-loop emission of generate_tokens_probs_and_return_on_first_stage as
seen on the first pipeline stage with return_output_log_probs set
(generation.py lines 319-341): the token buffer is truncated to
context_length + 1 columns and the log-prob buffer to context_length columns;
then, unless prompts are echoed, each generated-length entry is reduced by the
row's prompt length, each token row is rolled left by the prompt length and
each log-prob row by the prompt length minus one. -/
def postLoopEmit (echo_prompts : Bool) (lengths : List Nat) (context_length : Nat)
    (tokens : List Row) (output_log_probs : List (List Int))
    (generated_sequence_lengths : List Int) :
    List Row × List (List Int) × List Int :=
  let tokensT := tokens.map (fun row => row.take (context_length + 1))
  let probsT := output_log_probs.map (fun row => row.take context_length)
  if echo_prompts then (tokensT, probsT, generated_sequence_lengths)
  else
    ((tokensT.zip lengths).map (fun p => rollLeft p.2 p.1),
      (probsT.zip lengths).map (fun p => rollLeft (p.2 - 1) p.1),
      (generated_sequence_lengths.zip lengths).map (fun p => p.1 - (p.2 : Int)))

/-- The three execution modes a forward invocation can run in. -/
inductive ForwardMode where
  | noPipelining
  | earlyExitPipelining
  | microBatchedPipelining
deriving Repr, DecidableEq

/-- Dispatch of ForwardStep.__call__ (forward_step.py lines 46-62): whenever
the pipeline has more than one stage it calls
_with_early_exit_pipelining_forward_step, otherwise
_no_pipelining_forward_step.  The early-exit flag is a parameter only to
record that the dispatch never consults it; _with_pipelining_forward_step is
not reachable from __call__. -/
def forwardStepDispatch (pipeline_size_larger_than_one : Bool)
    (_use_early_exit : Bool) : ForwardMode :=
  if pipeline_size_larger_than_one then ForwardMode.earlyExitPipelining
  else ForwardMode.noPipelining

/-- Size of micro-batch chunk i of _with_pipelining_forward_step
(forward_step.py lines 155-157): end - start with start = i * micro_batch_size
and end clamped to batch_size. -/
def wpChunkLen (micro_batch_size batch_size i : Nat) : Nat :=
  min (i * micro_batch_size + micro_batch_size) batch_size - i * micro_batch_size

/-- One iteration of the micro-batch loop of _with_pipelining_forward_step
(forward_step.py lines 153-173): the model runs on the chunk's rows, its
last-stage logits are appended at the chunk's offset, and batch_size_offset is
advanced by the chunk size. -/
def wpStep (modelRow : Nat → List Int) (micro_batch_size batch_size : Nat)
    (acc : List (List Int) × InferenceParams) (i : Nat) :
    List (List Int) × InferenceParams :=
  (acc.1 ++ (List.range' (i * micro_batch_size)
      (wpChunkLen micro_batch_size batch_size i)).map modelRow,
    { acc.2 with batch_size_offset := acc.2.batch_size_offset +
        wpChunkLen micro_batch_size batch_size i })

/-- Model of _with_pipelining_forward_step (forward_step.py lines 130-181) on
the last pipeline stage, with the model's last-stage logits abstracted by a
per-row oracle.  The batch dimension is cut into ceil(batch/micro) chunks
(divmod plus one when there is a remainder chunk); each chunk runs wpStep;
after all chunks sequence_len_offset advances by the step's sequence length
once and batch_size_offset is reset to zero. -/
def with_pipelining_forward_step (modelRow : Nat → List Int)
    (batch_size sequence_length micro_batch_size : Nat) (p : InferenceParams) :
    List (List Int) × InferenceParams :=
  let num_micro_batches :=
    batch_size / micro_batch_size + (if 0 < batch_size % micro_batch_size then 1 else 0)
  let r := (List.range num_micro_batches).foldl
    (wpStep modelRow micro_batch_size batch_size) ([], p)
  (r.1,
    { r.2 with
        sequence_len_offset := r.2.sequence_len_offset + sequence_length,
        batch_size_offset := 0 })

/-- Model of _with_early_exit_pipelining_forward_step (forward_step.py lines
195-214).  The batch-size assertion runs first; on a non-first stage the
received one-byte exit signal is folded into prev_has_early_exited before the
model call; the signal sent downstream is the or of the own and inherited exit
flags; sequence_len_offset advances by the step's sequence length
unconditionally.  The pair's second component counts model invocations. -/
def with_early_exit_pipelining_forward_step
    (modelCall : InferenceParams → List Int × InferenceParams)
    (is_first_stage : Bool) (recv_exit_signal : Bool)
    (batch_size sequence_length : Nat) (p : InferenceParams) :
    Except String (List Int × Bool × InferenceParams) × Nat :=
  if batch_size = 1 then
    let p1 := if is_first_stage then p else { p with prev_has_early_exited := recv_exit_signal }
    let r := modelCall p1
    let signal := r.2.has_early_exited || r.2.prev_has_early_exited
    (.ok (r.1, signal,
        { r.2 with sequence_len_offset := r.2.sequence_len_offset + sequence_length }), 1)
  else
    (.error "early exit not support batch inference yet", 0)

/-- The state threaded through the decoding loop of
generate_with_pipelined_early_exit_and_return_on_first_stage, plus the list of
context lengths whose iterations actually ran. -/
structure EELoopState where
  tokens : List Row
  prev_context_length : Nat
  params : InferenceParams
  visited : List Nat
deriving Repr, DecidableEq

/-- One loop-body iteration of
generate_with_pipelined_early_exit_and_return_on_first_stage (generation.py
lines 581-651), last-stage view: early-exit signals are cleared, the forward
step runs (advancing sequence_len_offset by the window length and deciding the
exit flag through the exit oracle), and when no exit signal is set started
rows receive the sampled token; then prev_context_length catches up and the
first-step flag clears.  All stopping machinery of lines 653-678 is commented
out in the source and so absent here. -/
def eeGenStep (sampler : Nat → Nat → Token) (exitOracle : Nat → Bool)
    (lengths : List Nat) (context_length : Nat) (st : EELoopState) : EELoopState :=
  let window := context_length - st.prev_context_length
  let p0 := { st.params with has_early_exited := false, prev_has_early_exited := false }
  let p1 := { p0 with
    sequence_len_offset := p0.sequence_len_offset + window,
    has_early_exited := exitOracle context_length }
  let tokens1 :=
    if p1.has_early_exited || p1.prev_has_early_exited then st.tokens
    else (List.range st.tokens.length).map (fun r =>
      if lengths.getD r 0 ≤ context_length then
        (st.tokens.getD r []).set context_length (sampler context_length r)
      else st.tokens.getD r [])
  { tokens := tokens1,
    prev_context_length := context_length,
    params := { p1 with is_first_step := false },
    visited := st.visited ++ [context_length] }

/-- The decoding loop of
generate_with_pipelined_early_exit_and_return_on_first_stage (generation.py
lines 575-678), fuel-indexed with fuel = max_sequence_length - context_length
at entry.  The stop-token list, termination id and the early-termination flag
are parameters only to record that no iteration consults them: the loop body
contains no break. -/
def eeGenLoopFuel (sampler : Nat → Nat → Token) (exitOracle : Nat → Bool)
    (lengths : List Nat) (use_stop_tokens_for_early_termination : Bool)
    (stop_tokens : List Token) (termination_id : Token) :
    Nat → Nat → EELoopState → EELoopState
  | 0, _, st => st
  | fuel + 1, context_length, st =>
    eeGenLoopFuel sampler exitOracle lengths use_stop_tokens_for_early_termination
      stop_tokens termination_id fuel (context_length + 1)
      (eeGenStep sampler exitOracle lengths context_length st)

/-- One candidate inspected by the beam-search walk: token id, running score
and source beam row. -/
structure BeamCand where
  token : Token
  score : Int
  beam : Nat
deriving Repr, DecidableEq

/-- One entry finalized into the hypothesis pool by the walk: the source beam
whose token row is cloned, and the candidate's score. -/
structure HypAdd where
  beam : Nat
  score : Int
deriving Repr, DecidableEq

/-- Candidate selection of beam_search_and_return_on_first_stage
(generation.py lines 392-399): the flat score vector over (beam, vocab) is
sorted descending (on the first step only beam 0's vocabulary row takes part),
the top 2 * beam_size flat indices are kept and decoded into token
(index mod vocab_size) and source beam (index div vocab_size).  Scores are
abstracted as integers; torch.sort leaves the order of equal scores
unspecified, embedded here as a stable descending sort. -/
def beamSelect (new_scores : List (List Int)) (vocab_size beam_size : Nat)
    (is_first_step : Bool) : List BeamCand :=
  let flat :=
    if is_first_step then (new_scores.getD 0 []).enum.map (fun p => (p.2, p.1))
    else new_scores.flatten.enum.map (fun p => (p.2, p.1))
  let sorted := flat.mergeSort (fun a b => decide (b.1 ≤ a.1))
  (sorted.take (2 * beam_size)).map
    (fun p => ⟨p.2 % vocab_size, p.1, p.2 / vocab_size⟩)

/-- The candidate walk of beam_search_and_return_on_first_stage
(generation.py lines 401-420), with the running rank, hypothesis pool
additions and live continuations as accumulators: a stop-token candidate is
skipped when its rank is at least beam_size and otherwise finalized into the
pool; any other candidate is appended to the live continuations; after an
append (and after a pool add, but not after a skip, whose continue bypasses
the check) the walk stops once beam_size live continuations are collected. -/
def beamWalkAux (stop_token : Token) (beam_size : Nat) :
    List BeamCand → Nat → List HypAdd → List BeamCand → List HypAdd × List BeamCand
  | [], _, hyps, next_beams => (hyps, next_beams)
  | c :: rest, rank, hyps, next_beams =>
    if c.token = stop_token then
      if beam_size ≤ rank then
        beamWalkAux stop_token beam_size rest (rank + 1) hyps next_beams
      else
        let hyps1 := hyps ++ [⟨c.beam, c.score⟩]
        if next_beams.length = beam_size then (hyps1, next_beams)
        else beamWalkAux stop_token beam_size rest (rank + 1) hyps1 next_beams
    else
      let next1 := next_beams ++ [c]
      if next1.length = beam_size then (hyps, next1)
      else beamWalkAux stop_token beam_size rest (rank + 1) hyps next1

/-- The whole per-step candidate walk, from rank 0 with empty accumulators. -/
def beamWalk (stop_token : Token) (beam_size : Nat) (cands : List BeamCand) :
    List HypAdd × List BeamCand :=
  beamWalkAux stop_token beam_size cands 0 [] []

/- ------------------------------------------------------------------ -/
/- Helper lemmas                                                      -/
/- ------------------------------------------------------------------ -/

theorem getD_map_range {α : Type} (f : Nat → α) (n r : Nat) (d : α) :
    ((List.range n).map f).getD r d = if r < n then f r else d := by
  rcases Nat.lt_or_ge r n with h | h
  · simp [List.getD_eq_getElem?_getD, List.getElem?_map, List.getElem?_range h, h]
  · rw [List.getD_eq_getElem?_getD, List.getElem?_map,
      List.getElem?_eq_none (by simpa using h)]
    simp [Nat.not_lt.mpr h]

theorem getD_replicate' {α : Type} (n r : Nat) (a d : α) :
    (List.replicate n a).getD r d = if r < n then a else d := by
  rcases Nat.lt_or_ge r n with h | h
  · rw [List.getD_eq_getElem?_getD, List.getElem?_eq_getElem (by simpa using h)]
    simp [List.getElem_replicate, h]
  · rw [List.getD_eq_getElem?_getD, List.getElem?_eq_none (by simpa using h)]
    simp [Nat.not_lt.mpr h]

theorem find?_congr_of_mem {α : Type} {p q : α → Bool} :
    ∀ {l : List α}, (∀ x ∈ l, p x = q x) → l.find? p = l.find? q := by
  intro l
  induction l with
  | nil => intro _; rfl
  | cons a l ih =>
    intro h
    have ha := h a (by simp)
    by_cases hp : p a
    · rw [List.find?_cons_of_pos _ hp, List.find?_cons_of_pos _ (ha ▸ hp)]
    · rw [List.find?_cons_of_neg _ hp, List.find?_cons_of_neg _ (by rw [← ha]; exact hp),
        ih (fun x hx => h x (by simp [hx]))]

theorem find?_range'_some {p : Nat → Bool} :
    ∀ {n s x : Nat}, (List.range' s n).find? p = some x →
      s ≤ x ∧ x < s + n ∧ p x = true ∧ ∀ c, s ≤ c → c < x → p c = false := by
  intro n
  induction n with
  | zero => intro s x h; simp at h
  | succ n ih =>
    intro s x h
    rw [List.range'_succ] at h
    by_cases hp : p s
    · rw [List.find?_cons_of_pos _ hp] at h
      obtain rfl : s = x := by simpa using h
      exact ⟨Nat.le_refl _, by omega, hp, fun c h1 h2 => by omega⟩
    · rw [List.find?_cons_of_neg _ hp] at h
      obtain ⟨h1, h2, h3, h4⟩ := ih h
      refine ⟨by omega, by omega, h3, fun c hc1 hc2 => ?_⟩
      rcases Nat.eq_or_lt_of_le hc1 with rfl | hc
      · simpa using hp
      · exact h4 c hc hc2

theorem foldSteps_zero (E : GenEnv) (s : Nat) (st : GenLoopState) :
    foldSteps E s 0 st = st := rfl

theorem foldSteps_succ_left (E : GenEnv) (s n : Nat) (st : GenLoopState) :
    foldSteps E s (n + 1) st = foldSteps E (s + 1) n (genStepState E s st) := by
  simp [foldSteps, List.range'_succ]

theorem genStepState_done_length (E : GenEnv) (c : Nat) (st : GenLoopState) :
    (genStepState E c st).is_generation_done.length = st.is_generation_done.length := by
  simp [genStepState]

theorem genStepState_genlen_length (E : GenEnv) (c : Nat) (st : GenLoopState) :
    (genStepState E c st).generated_sequence_lengths.length =
      st.generated_sequence_lengths.length := by
  simp [genStepState]

theorem foldSteps_done_getD (E : GenEnv) :
    ∀ (n s : Nat) (st : GenLoopState) (r : Nat), r < st.is_generation_done.length →
      (foldSteps E s n st).is_generation_done.getD r false =
        (st.is_generation_done.getD r false ||
          (List.range' s n).any (fun c => doneTokenAt E c r)) := by
  intro n
  induction n with
  | zero => intro s st r _; simp [foldSteps_zero]
  | succ n ih =>
    intro s st r hr
    rw [foldSteps_succ_left,
      ih (s + 1) _ r (by rw [genStepState_done_length]; exact hr)]
    have hstep : (genStepState E s st).is_generation_done.getD r false =
        (st.is_generation_done.getD r false || doneTokenAt E s r) := by
      simp only [genStepState]
      rw [getD_map_range]
      simp [hr]
    rw [hstep, List.range'_succ]
    simp [Bool.or_assoc]

theorem foldSteps_genlen_getD (E : GenEnv) :
    ∀ (n s : Nat) (st : GenLoopState) (r : Nat),
      r < st.generated_sequence_lengths.length → r < st.is_generation_done.length →
      (foldSteps E s n st).generated_sequence_lengths.getD r 0 =
        (if st.is_generation_done.getD r false then st.generated_sequence_lengths.getD r 0
         else
           match (List.range' s n).find? (fun c => doneTokenAt E c r) with
           | some c0 => c0 + 1
           | none => st.generated_sequence_lengths.getD r 0) := by
  intro n
  induction n with
  | zero =>
    intro s st r _ _
    simp [foldSteps_zero]
  | succ n ih =>
    intro s st r hr1 hr2
    rw [foldSteps_succ_left,
      ih (s + 1) _ r (by rw [genStepState_genlen_length]; exact hr1)
        (by rw [genStepState_done_length]; exact hr2)]
    have hdone : (genStepState E s st).is_generation_done.getD r false =
        (st.is_generation_done.getD r false || doneTokenAt E s r) := by
      simp only [genStepState]
      rw [getD_map_range]
      simp [hr2]
    have hlen : (genStepState E s st).generated_sequence_lengths.getD r 0 =
        (if doneTokenAt E s r && !(st.is_generation_done.getD r false) then s + 1
         else st.generated_sequence_lengths.getD r 0) := by
      simp only [genStepState]
      rw [getD_map_range]
      simp [hr1]
    rw [hdone, hlen, List.range'_succ]
    generalize st.is_generation_done.getD r false = a
    rw [List.find?_cons]
    cases a with
    | true => simp
    | false =>
      cases hb : doneTokenAt E s r with
      | true => simp [hb]
      | false =>
        simp only [hb]
        cases hfind : (List.range' (s + 1) n).find? (fun c => doneTokenAt E c r) with
        | none => simp [hb]
        | some c0 => simp [hb]

theorem genLoop_bridge (E : GenEnv) (top_k : Nat) (top_p : ℚ)
    (hs : ¬(0 < top_k ∧ 0 < top_p)) :
    ∀ (fuel ctx : Nat) (st : GenLoopState),
      genLoopFuel E true top_k top_p fuel ctx st =
        match (List.range' ctx fuel).find?
            (fun c => (foldSteps E ctx (c + 1 - ctx) st).is_generation_done.all
              (fun d => d)) with
        | some F => (foldSteps E ctx (F + 1 - ctx) st, F, none)
        | none => (foldSteps E ctx fuel st, ctx + fuel - 1, none) := by
  intro fuel
  induction fuel with
  | zero =>
    intro ctx st
    simp [genLoopFuel, foldSteps_zero]
  | succ fuel ih =>
    intro ctx st
    rw [genLoopFuel, if_neg hs]
    have h1a : foldSteps E ctx 1 st = genStepState E ctx st := by
      rw [foldSteps_succ_left, foldSteps_zero]
    have h1 : foldSteps E ctx (ctx + 1 - ctx) st = genStepState E ctx st := by
      have hcc : ctx + 1 - ctx = 1 := by omega
      rw [hcc, h1a]
    rw [List.range'_succ, List.find?_cons]
    by_cases hall : (genStepState E ctx st).is_generation_done.all (fun d => d)
    · have hp : (foldSteps E ctx (ctx + 1 - ctx) st).is_generation_done.all
          (fun d => d) = true := by rw [h1]; exact hall
      simp [hp, hall, h1, h1a]
    · simp only [Bool.not_eq_true] at hall
      have hp : (foldSteps E ctx (ctx + 1 - ctx) st).is_generation_done.all
          (fun d => d) = false := by rw [h1]; exact hall
      simp only [hp, hall, Bool.true_and, Bool.false_eq_true, if_false]
      rw [ih (ctx + 1) (genStepState E ctx st)]
      have hcongr : (List.range' (ctx + 1) fuel).find?
            (fun c => (foldSteps E (ctx + 1) (c + 1 - (ctx + 1))
              (genStepState E ctx st)).is_generation_done.all (fun d => d)) =
          (List.range' (ctx + 1) fuel).find?
            (fun c => (foldSteps E ctx (c + 1 - ctx) st).is_generation_done.all
              (fun d => d)) := by
        apply find?_congr_of_mem
        intro c hc
        have hc1 : ctx + 1 ≤ c := (List.mem_range'_1.mp hc).1
        have h2 : c + 1 - ctx = (c + 1 - (ctx + 1)) + 1 := by omega
        rw [h2, foldSteps_succ_left]
      rw [hcongr]
      rcases hfind : (List.range' (ctx + 1) fuel).find?
          (fun c => (foldSteps E ctx (c + 1 - ctx) st).is_generation_done.all
            (fun d => d)) with _ | F
      · show (foldSteps E (ctx + 1) fuel (genStepState E ctx st), ctx + 1 + fuel - 1,
            (none : Option String)) =
          (foldSteps E ctx (fuel + 1) st, ctx + (fuel + 1) - 1, none)
        rw [foldSteps_succ_left]
        have h3 : ctx + 1 + fuel - 1 = ctx + (fuel + 1) - 1 := by omega
        rw [h3]
      · have hF1 : ctx + 1 ≤ F := (find?_range'_some hfind).1
        have h2 : F + 1 - ctx = (F + 1 - (ctx + 1)) + 1 := by omega
        show (foldSteps E (ctx + 1) (F + 1 - (ctx + 1)) (genStepState E ctx st), F,
            (none : Option String)) =
          (foldSteps E ctx (F + 1 - ctx) st, F, none)
        rw [h2, foldSteps_succ_left]

theorem eeGenLoop_visited (sampler : Nat → Nat → Token) (exitOracle : Nat → Bool)
    (lengths : List Nat) (u : Bool) (stop_tokens : List Token) (termination_id : Token) :
    ∀ (fuel ctx : Nat) (st : EELoopState),
      (eeGenLoopFuel sampler exitOracle lengths u stop_tokens termination_id
          fuel ctx st).visited = st.visited ++ List.range' ctx fuel := by
  intro fuel
  induction fuel with
  | zero => intro ctx st; simp [eeGenLoopFuel]
  | succ n ih =>
    intro ctx st
    rw [eeGenLoopFuel, ih]
    simp [eeGenStep, List.range'_succ]

theorem eeGenLoop_indep (sampler : Nat → Nat → Token) (exitOracle : Nat → Bool)
    (lengths : List Nat) (u1 u2 : Bool) (s1 s2 : List Token) (t1 t2 : Token) :
    ∀ (fuel ctx : Nat) (st : EELoopState),
      eeGenLoopFuel sampler exitOracle lengths u1 s1 t1 fuel ctx st =
        eeGenLoopFuel sampler exitOracle lengths u2 s2 t2 fuel ctx st := by
  intro fuel
  induction fuel with
  | zero => intro ctx st; rfl
  | succ n ih => intro ctx st; rw [eeGenLoopFuel, eeGenLoopFuel, ih]

/- ------------------------------------------------------------------ -/
/- Claim theorems                                                     -/
/- ------------------------------------------------------------------ -/

/-- C1: for a controller step of generate_tokens_probs_and_return_on_first_stage
at a context length between the row's prompt length and the maximum sequence
length, the end-of-step bookkeeping leaves sequence_len_offset increased by
exactly the length of the forwarded token window when no early exit occurred
during the step, and by exactly zero when a full-pipeline early exit occurred;
the forwarded window spans from the fully-committed position to the current
context length. -/
theorem C1_sequence_len_offset_advance (row : Row)
    (context_length prompt_length max_sequence_length : Nat) (c : GenStepCtx)
    (hp : prompt_length ≤ context_length)
    (hm : context_length < max_sequence_length)
    (hrow : row.length = max_sequence_length)
    (hfe : c.full_exit_context_length ≤ context_length) :
    ((c.params.has_early_exited = false →
        (genStepAdvance row context_length c).params.sequence_len_offset =
          c.params.sequence_len_offset +
            (tokens2use row c.full_exit_context_length context_length).length) ∧
      (c.params.has_early_exited = true →
        (genStepAdvance row context_length c).params.sequence_len_offset =
          c.params.sequence_len_offset)) ∧
    (tokens2use row c.full_exit_context_length context_length).length =
      context_length - c.full_exit_context_length := by
  constructor
  · constructor <;> intro h <;> simp [genStepAdvance, h]
  · simp only [tokens2use, List.length_drop, List.length_take]
    omega

/-- Witness for C1 at a concrete step: context length 2, prompt length 1,
window of length 1, no early exit. -/
theorem C1_sequence_len_offset_advance_witness :
    (genStepAdvance [5, 6, 7, 8] 2 ⟨1, 1, ⟨3, 0, false, false, true⟩⟩).params.sequence_len_offset
        = 3 + 1 ∧
    (tokens2use [5, 6, 7, 8] 1 2).length = 1 := by
  have h := C1_sequence_len_offset_advance [5, 6, 7, 8] 2 1 4
    ⟨1, 1, ⟨3, 0, false, false, true⟩⟩ (by decide) (by decide) (by decide) (by decide)
  obtain ⟨⟨h1, _⟩, h2⟩ := h
  exact ⟨by rw [h1 rfl]; decide, by simpa using h2⟩

/-- C4: a generation call whose max_sequence_length exceeds the position
embedding limit, or whose max_sequence_length times batch_size exceeds the
configured token budget, is rejected by the precondition checks before the
decoding loop: the call errors and performs zero forward steps. -/
theorem C4_precondition_rejection (E : GenEnv) (tokens0 : List Row)
    (use_stop : Bool) (top_k : Nat) (top_p : ℚ)
    (batch_size max_sequence_length max_position_embeddings max_tokens_to_oom : Nat)
    (h : max_position_embeddings < max_sequence_length ∨
      max_tokens_to_oom < max_sequence_length * batch_size) :
    (generateModel E tokens0 use_stop top_k top_p batch_size max_sequence_length
        max_position_embeddings max_tokens_to_oom).isError = true ∧
    (generateModel E tokens0 use_stop top_k top_p batch_size max_sequence_length
        max_position_embeddings max_tokens_to_oom).forward_steps = 0 := by
  by_cases h1 : max_position_embeddings < max_sequence_length
  · simp [generateModel, h1, GenCallResult.isError]
  · have h2 : max_tokens_to_oom < max_sequence_length * batch_size := by tauto
    simp [generateModel, h1, h2, GenCallResult.isError]

/-- Witness for C4: a call whose token product exceeds the budget by exactly
one unit errors with zero forward steps. -/
theorem C4_precondition_rejection_witness :
    3 * 2 = 5 + 1 ∧
    (generateModel ⟨fun _ _ => 0, [1, 1], [], 9⟩ [[0, 0, 0], [0, 0, 0]]
        true 1 0 2 3 10 5).isError = true ∧
    (generateModel ⟨fun _ _ => 0, [1, 1], [], 9⟩ [[0, 0, 0], [0, 0, 0]]
        true 1 0 2 3 10 5).forward_steps = 0 := by
  have h := C4_precondition_rejection ⟨fun _ _ => 0, [1, 1], [], 9⟩
    [[0, 0, 0], [0, 0, 0]] true 1 0 2 3 10 5 (Or.inr (by decide))
  exact ⟨by decide, h.1, h.2⟩

/-- C8: invoking early-exit pipelined forward execution with batch size
greater than one fails the batch-size assertion before the model is invoked
(zero model calls), and under the precondition batch size equal to one the
rejection branch is unreachable: the call succeeds with exactly one model
invocation. -/
theorem C8_early_exit_batch_assertion
    (modelCall : InferenceParams → List Int × InferenceParams)
    (is_first_stage recv_exit_signal : Bool) (batch_size sequence_length : Nat)
    (p : InferenceParams) :
    (1 < batch_size →
      with_early_exit_pipelining_forward_step modelCall is_first_stage recv_exit_signal
          batch_size sequence_length p =
        (.error "early exit not support batch inference yet", 0)) ∧
    (batch_size = 1 →
      ∃ out, with_early_exit_pipelining_forward_step modelCall is_first_stage
          recv_exit_signal batch_size sequence_length p = (.ok out, 1)) := by
  constructor
  · intro h
    rw [with_early_exit_pipelining_forward_step, if_neg (by omega)]
  · intro h
    subst h
    rw [with_early_exit_pipelining_forward_step, if_pos rfl]
    exact ⟨_, rfl⟩

/-- Witness for C8 at batch sizes 2 and 1. -/
theorem C8_early_exit_batch_assertion_witness :
    with_early_exit_pipelining_forward_step (fun q => ([0], q)) false false 2 1
        ⟨0, 0, false, false, true⟩ =
      (.error "early exit not support batch inference yet", 0) ∧
    ∃ out, with_early_exit_pipelining_forward_step (fun q => ([0], q)) false false 1 1
        ⟨0, 0, false, false, true⟩ = (.ok out, 1) := by
  have h := C8_early_exit_batch_assertion (fun q => ([0], q)) false false 2 1
    ⟨0, 0, false, false, true⟩
  have h1 := C8_early_exit_batch_assertion (fun q => ([0], q)) false false 1 1
    ⟨0, 0, false, false, true⟩
  exact ⟨h.1 (by decide), h1.2 rfl⟩

/-- C10: the decoding loop of
generate_with_pipelined_early_exit_and_return_on_first_stage never terminates
early: it runs one iteration for every context length from the minimum prompt
length up to max_sequence_length - 1, and its result is independent of the
stop tokens, the termination id and the early-termination flag. -/
theorem C10_ee_loop_never_stops_early (sampler : Nat → Nat → Token)
    (exitOracle : Nat → Bool) (lengths : List Nat)
    (u1 u2 : Bool) (s1 s2 : List Token) (t1 t2 : Token)
    (min_prompt_length max_sequence_length : Nat) (st : EELoopState) :
    (eeGenLoopFuel sampler exitOracle lengths u1 s1 t1
        (max_sequence_length - min_prompt_length) min_prompt_length st).visited =
      st.visited ++
        List.range' min_prompt_length (max_sequence_length - min_prompt_length) ∧
    eeGenLoopFuel sampler exitOracle lengths u1 s1 t1
        (max_sequence_length - min_prompt_length) min_prompt_length st =
      eeGenLoopFuel sampler exitOracle lengths u2 s2 t2
        (max_sequence_length - min_prompt_length) min_prompt_length st :=
  ⟨eeGenLoop_visited sampler exitOracle lengths u1 s1 t1 _ _ st,
    eeGenLoop_indep sampler exitOracle lengths u1 u2 s1 s2 t1 t2 _ _ st⟩

/-- C6 counterexample: the dispatcher of ForwardStep with a pipeline of more
than one stage and early exit not in use selects early-exit pipelined
execution, not micro-batched pipelined execution. -/
theorem C6_counterexample :
    forwardStepDispatch true false = ForwardMode.earlyExitPipelining ∧
    forwardStepDispatch true false ≠ ForwardMode.microBatchedPipelining := by
  decide

/-- C2 counterexample: with active request 0, this step's exited set
containing both 0 and the previously buffered request 1, every active request
exited; the reconciliation block is skipped and the buffered request 1 is not
appended back, contradicting the claim's unconditional re-admission. -/
theorem C2_counterexample :
    (1 ∈ ([0, 1] : List Nat)) ∧ (1 ∉ ([0] : List Nat)) ∧
    bufLookup [(1, [7, 7])] 1 = some [7, 7] ∧
    reconcile [0] [0, 1] [[5, 5]] [(1, [7, 7])] = ([[5, 5]], [(1, [7, 7])]) ∧
    [7, 7] ∉ (reconcile [0] [0, 1] [[5, 5]] [(1, [7, 7])]).1 := by
  decide

theorem wpStep_fold (modelRow : Nat → List Int) (m b : Nat) :
    ∀ (l : List Nat) (acc : List (List Int)) (q : InferenceParams),
      l.foldl (wpStep modelRow m b) (acc, q) =
        (l.foldl (fun a i => a ++ (List.range' (i * m) (wpChunkLen m b i)).map modelRow) acc,
          l.foldl (fun r i =>
            { r with batch_size_offset := r.batch_size_offset + wpChunkLen m b i }) q) := by
  intro l
  induction l with
  | nil => intro acc q; rfl
  | cons a l ih =>
    intro acc q
    simp only [List.foldl_cons]
    exact ih _ _

theorem wp_bso_fold_slo (m b : Nat) :
    ∀ (l : List Nat) (q : InferenceParams),
      (l.foldl (fun r i =>
          { r with batch_size_offset := r.batch_size_offset + wpChunkLen m b i })
        q).sequence_len_offset = q.sequence_len_offset := by
  intro l
  induction l with
  | nil => intro q; rfl
  | cons a l ih => intro q; simp only [List.foldl_cons]; exact ih _

theorem chunks_cover (modelRow : Nat → List Int) (m b : Nat) :
    ∀ k, (List.range k).foldl
        (fun a i => a ++ (List.range' (i * m) (wpChunkLen m b i)).map modelRow) [] =
      (List.range (min (k * m) b)).map modelRow := by
  intro k
  induction k with
  | zero => simp
  | succ k ih =>
    rw [List.range_succ, List.foldl_append, ih]
    simp only [List.foldl_cons, List.foldl_nil, wpChunkLen]
    rcases Nat.le_total b (k * m) with h | h
    · have h1 : min (k * m) b = b := by omega
      have h2 : min (k * m + m) b - k * m = 0 := by omega
      have h3 : min ((k + 1) * m) b = b := by
        have h0 : (k + 1) * m = k * m + m := by ring
        omega
      simp [h1, h2, h3]
    · have h1 : min (k * m) b = k * m := by omega
      rw [h1, ← List.map_append]
      have h4 : List.range (k * m) ++ List.range' (k * m) (min (k * m + m) b - k * m) =
          List.range (min ((k + 1) * m) b) := by
        rw [List.range_eq_range', List.range_eq_range']
        have h5 := List.range'_append 0 (k * m) (min (k * m + m) b - k * m) 1
        simp only [Nat.one_mul, Nat.zero_add] at h5
        rw [h5]
        have h6 : min (k * m + m) b - k * m + k * m = min ((k + 1) * m) b := by
          have h0 : (k + 1) * m = k * m + m := by ring
          omega
        rw [h6]
      rw [h4]

theorem num_micro_batches_covers (b m : Nat) (hm : 0 < m) :
    min ((b / m + (if 0 < b % m then 1 else 0)) * m) b = b := by
  have h1 := Nat.div_add_mod b m
  have h2 : b % m < m := Nat.mod_lt b hm
  rcases Nat.eq_zero_or_pos (b % m) with h | h
  · have h4 : (if 0 < b % m then 1 else 0) = 0 := by simp [h]
    have h3 : (b / m + 0) * m = m * (b / m) := by ring
    rw [h4, h3]
    omega
  · have h4 : (if 0 < b % m then 1 else 0) = 1 := if_pos h
    have h3 : (b / m + 1) * m = m * (b / m) + m := by ring
    rw [h4, h3]
    omega

/-- C6 counterexample is C6_counterexample; this is the amended claim:
ForwardStep with more than one pipeline stage always dispatches to early-exit
pipelined execution regardless of whether early exit is in use, and
_with_pipelining_forward_step itself (no longer reachable from the
dispatcher) splits the batch into chunks of micro_batch_size, accumulates the
last-stage logits of each chunk at the chunk's offset so that the assembled
logits cover every batch row exactly once in order, advances
sequence_len_offset by the step's sequence length exactly once (not once per
chunk), and leaves batch_size_offset equal to zero. -/
theorem C6_amended_dispatch_and_micro_batching (modelRow : Nat → List Int)
    (batch_size sequence_length micro_batch_size : Nat) (p : InferenceParams)
    (ee : Bool) (hm : 0 < micro_batch_size) :
    forwardStepDispatch true ee = ForwardMode.earlyExitPipelining ∧
    (with_pipelining_forward_step modelRow batch_size sequence_length
        micro_batch_size p).1 = (List.range batch_size).map modelRow ∧
    (with_pipelining_forward_step modelRow batch_size sequence_length
        micro_batch_size p).2.sequence_len_offset =
      p.sequence_len_offset + sequence_length ∧
    (with_pipelining_forward_step modelRow batch_size sequence_length
        micro_batch_size p).2.batch_size_offset = 0 := by
  refine ⟨rfl, ?_, ?_, ?_⟩
  · simp only [with_pipelining_forward_step, wpStep_fold]
    rw [chunks_cover modelRow micro_batch_size batch_size,
      num_micro_batches_covers batch_size micro_batch_size hm]
  · simp only [with_pipelining_forward_step, wpStep_fold]
    rw [wp_bso_fold_slo]
  · simp only [with_pipelining_forward_step, wpStep_fold]

/-- Witness for C6 amended at batch 5, sequence length 3, micro batch 2. -/
theorem C6_amended_dispatch_and_micro_batching_witness :
    (with_pipelining_forward_step (fun r => [Int.ofNat r]) 5 3 2
        ⟨10, 0, false, false, true⟩).1 = (List.range 5).map (fun r => [Int.ofNat r]) ∧
    (with_pipelining_forward_step (fun r => [Int.ofNat r]) 5 3 2
        ⟨10, 0, false, false, true⟩).2.sequence_len_offset = 10 + 3 ∧
    (with_pipelining_forward_step (fun r => [Int.ofNat r]) 5 3 2
        ⟨10, 0, false, false, true⟩).2.batch_size_offset = 0 := by
  have h := C6_amended_dispatch_and_micro_batching (fun r => [Int.ofNat r]) 5 3 2
    ⟨10, 0, false, false, true⟩ false (by decide)
  exact ⟨h.2.1, h.2.2.1, h.2.2.2⟩

theorem find?_map_replace_ne (k id : Nat) (row : Row) (hid : id ≠ k) :
    ∀ tl : List (Nat × Row),
      (tl.map (fun p => if p.1 = k then (k, row) else p)).find? (fun p => p.1 = id) =
        tl.find? (fun p => p.1 = id) := by
  intro tl
  induction tl with
  | nil => rfl
  | cons hd tl ih =>
    by_cases hh : hd.1 = k
    · have h1 : ¬((k : Nat) = id) = true := by simp; exact fun h => hid h.symm
      have h2 : ¬(hd.1 = id) = true := by simp; rw [hh]; exact fun h => hid h.symm
      simp only [List.map_cons, if_pos hh]
      rw [List.find?_cons_of_neg _ (by simpa using h1),
        List.find?_cons_of_neg _ (by simpa using h2), ih]
    · simp only [List.map_cons, if_neg hh]
      by_cases hd2 : hd.1 = id
      · rw [List.find?_cons_of_pos _ (by simpa using hd2),
          List.find?_cons_of_pos _ (by simpa using hd2)]
      · rw [List.find?_cons_of_neg _ (by simpa using hd2),
          List.find?_cons_of_neg _ (by simpa using hd2), ih]

theorem find?_map_replace_self (k : Nat) (row : Row) :
    ∀ tl : List (Nat × Row), tl.any (fun p => p.1 = k) →
      (tl.map (fun p => if p.1 = k then (k, row) else p)).find? (fun p => p.1 = k) =
        some (k, row) := by
  intro tl
  induction tl with
  | nil => intro h; simp at h
  | cons hd tl ih =>
    intro hany
    by_cases hh : hd.1 = k
    · simp only [List.map_cons, if_pos hh]
      rw [List.find?_cons_of_pos _ (by simp)]
    · simp only [List.map_cons, if_neg hh]
      rw [List.find?_cons_of_neg _ (by simpa using hh)]
      apply ih
      rcases List.any_eq_true.mp hany with ⟨x, hx, hpx⟩
      rcases List.mem_cons.mp hx with rfl | hx2
      · exact absurd (by simpa using hpx) hh
      · exact List.any_eq_true.mpr ⟨x, hx2, hpx⟩

theorem find?_eq_none_of_not_any (id : Nat) :
    ∀ b : List (Nat × Row), ¬b.any (fun p => p.1 = id) →
      b.find? (fun p => p.1 = id) = none := by
  intro b hb
  rw [List.find?_eq_none]
  intro x hx
  simp only [Bool.not_eq_true]
  by_contra hc
  exact hb (List.any_eq_true.mpr ⟨x, hx, by simpa using hc⟩)

theorem bufLookup_bufInsert (b : List (Nat × Row)) (k id : Nat) (row : Row) :
    bufLookup (bufInsert b k row) id = if id = k then some row else bufLookup b id := by
  by_cases hany : b.any (fun p => p.1 = k)
  · rw [bufInsert, if_pos hany]
    by_cases hid : id = k
    · subst hid
      rw [if_pos rfl, bufLookup, find?_map_replace_self id row b hany]
      rfl
    · rw [if_neg hid, bufLookup, bufLookup, find?_map_replace_ne k id row hid b]
  · rw [bufInsert, if_neg hany]
    by_cases hid : id = k
    · subst hid
      have hfind1 : List.find? (fun p => p.1 = id) [(id, row)] = some (id, row) :=
        List.find?_cons_of_pos _ (by simp)
      rw [if_pos rfl, bufLookup, List.find?_append,
        find?_eq_none_of_not_any id b hany, hfind1]
      rfl
    · have hfind1 : List.find? (fun p => p.1 = id) [(k, row)] = none := by
        rw [List.find?_cons_of_neg _ (by simpa using fun h => hid h.symm)]
        rfl
      rw [if_neg hid, bufLookup, bufLookup, List.find?_append, hfind1]
      simp

theorem foldInsert_lookup_other (req_ids exited_req_ids : List Nat)
    (tokens : List Row) (id : Nat) :
    ∀ (l : List Nat) (b : List (Nat × Row)),
      (∀ i ∈ l, req_ids.getD i 0 ≠ id) →
      bufLookup (l.foldl (fun b2 i =>
          if req_ids.getD i 0 ∈ exited_req_ids then b2
          else bufInsert b2 (req_ids.getD i 0) (tokens.getD i [])) b) id =
        bufLookup b id := by
  intro l
  induction l with
  | nil => intro b _; rfl
  | cons j rest ih =>
    intro b hne
    simp only [List.foldl_cons]
    by_cases hmem : req_ids.getD j 0 ∈ exited_req_ids
    · rw [if_pos hmem]
      exact ih b (fun i hi => hne i (by simp [hi]))
    · rw [if_neg hmem]
      rw [ih _ (fun i hi => hne i (by simp [hi]))]
      rw [bufLookup_bufInsert, if_neg (fun h => hne j (by simp) h.symm)]

theorem foldInsert_lookup_mem (req_ids exited_req_ids : List Nat) (tokens : List Row) :
    ∀ (l : List Nat) (b : List (Nat × Row)) (i : Nat),
      i ∈ l → l.Nodup →
      req_ids.getD i 0 ∉ exited_req_ids →
      (∀ j ∈ l, req_ids.getD j 0 = req_ids.getD i 0 → j = i) →
      bufLookup (l.foldl (fun b2 x =>
          if req_ids.getD x 0 ∈ exited_req_ids then b2
          else bufInsert b2 (req_ids.getD x 0) (tokens.getD x [])) b)
        (req_ids.getD i 0) = some (tokens.getD i []) := by
  intro l
  induction l with
  | nil => intro b i hi; simp at hi
  | cons j rest ih =>
    intro b i hi hnd hnotex hinj
    simp only [List.foldl_cons]
    rcases List.mem_cons.mp hi with rfl | hi2
    · rw [if_neg hnotex]
      rw [foldInsert_lookup_other req_ids exited_req_ids tokens _ rest _ ?hother]
      · rw [bufLookup_bufInsert, if_pos rfl]
      · intro x hx hcontra
        have hx2 : x = i := hinj x (by simp [hx]) hcontra
        subst hx2
        exact (List.nodup_cons.mp hnd).1 hx
    · by_cases hmem : req_ids.getD j 0 ∈ exited_req_ids
      · rw [if_pos hmem]
        exact ih b i hi2 (List.nodup_cons.mp hnd).2 hnotex
          (fun x hx => hinj x (by simp [hx]))
      · rw [if_neg hmem]
        exact ih _ i hi2 (List.nodup_cons.mp hnd).2 hnotex
          (fun x hx => hinj x (by simp [hx]))

/-- C2 counterexample is C2_counterexample; this is the amended claim: at a
step in which at least one active request did not exit, the active rows are
partitioned by membership of their request id in this step's exited set: the
active tensor becomes exactly the exited active rows (in order) followed by
the buffered row of every id in the exited set that is not an active request
id, pulled back unchanged from buffered_tokens; every active request that did
not exit has its row stored in buffered_tokens under its id; and buffer
entries of re-admitted ids are read unchanged, so no rows are lost or
duplicated.  When every active request exited this step, the block is skipped
and no buffered request is re-admitted. -/
theorem C2_amended_reconciliation (req_ids exited_req_ids : List Nat)
    (tokens : List Row) (buffered : List (Nat × Row))
    (hnd : req_ids.Nodup)
    (hguard : ∃ i, i < req_ids.length ∧ req_ids.getD i 0 ∉ exited_req_ids) :
    (reconcile req_ids exited_req_ids tokens buffered).1 =
      ((List.range req_ids.length).filter
          (fun i => decide (req_ids.getD i 0 ∈ exited_req_ids))).map
        (fun i => tokens.getD i []) ++
        (exited_req_ids.filter (fun id => decide (id ∉ req_ids))).map
          (fun id => (bufLookup buffered id).getD []) ∧
    (∀ i, i < req_ids.length → req_ids.getD i 0 ∉ exited_req_ids →
      bufLookup (reconcile req_ids exited_req_ids tokens buffered).2
        (req_ids.getD i 0) = some (tokens.getD i [])) ∧
    (∀ id ∈ exited_req_ids, id ∉ req_ids →
      bufLookup (reconcile req_ids exited_req_ids tokens buffered).2 id =
        bufLookup buffered id) := by
  obtain ⟨i0, hi0, hnot0⟩ := hguard
  have hguard2 : ((List.range req_ids.length).filter
      (fun i => decide (req_ids.getD i 0 ∈ exited_req_ids))).length ≠ req_ids.length := by
    have hlt : ((List.range req_ids.length).filter
        (fun i => decide (req_ids.getD i 0 ∈ exited_req_ids))).length <
        (List.range req_ids.length).length := by
      rw [List.length_filter_lt_length_iff_exists]
      exact ⟨i0, List.mem_range.mpr hi0, by simpa using hnot0⟩
    rw [List.length_range] at hlt
    omega
  have hinj : ∀ id, id ∉ req_ids → ∀ j ∈ List.range req_ids.length,
      req_ids.getD j 0 ≠ id := by
    intro id hid j hj hcontra
    apply hid
    rw [← hcontra, List.getD_eq_getElem req_ids 0 (List.mem_range.mp hj)]
    exact List.getElem_mem _
  rw [reconcile]
  rw [if_pos hguard2]
  dsimp only
  refine ⟨?_, ?_, ?_⟩
  · congr 1
    apply List.map_congr_left
    intro id hid
    have hid2 : id ∈ exited_req_ids ∧ id ∉ req_ids := by
      have h := List.mem_filter.mp hid
      exact ⟨h.1, by simpa using h.2⟩
    rw [foldInsert_lookup_other req_ids exited_req_ids tokens id _ buffered
      (fun j hj => hinj id hid2.2 j hj)]
  · intro i hi hnotex
    have hinj2 : ∀ j ∈ List.range req_ids.length,
        req_ids.getD j 0 = req_ids.getD i 0 → j = i := by
      intro j hj heq
      have hj2 : j < req_ids.length := List.mem_range.mp hj
      rw [List.getD_eq_getElem req_ids 0 hj2, List.getD_eq_getElem req_ids 0 hi] at heq
      exact (hnd.getElem_inj_iff.mp heq)
    exact foldInsert_lookup_mem req_ids exited_req_ids tokens _ buffered i
      (List.mem_range.mpr hi) (List.nodup_range _) hnotex hinj2
  · intro id hid hnotin
    exact foldInsert_lookup_other req_ids exited_req_ids tokens id _ buffered
      (fun j hj => hinj id hnotin j hj)

/-- Witness for C2 amended: active requests 0 and 1, request 0 exits, the
previously buffered request 2 is re-admitted, request 1 is buffered. -/
theorem C2_amended_reconciliation_witness :
    (reconcile [0, 1] [0, 2] [[5, 5], [6, 6]] [(2, [7, 7])]).1 = [[5, 5], [7, 7]] ∧
    bufLookup (reconcile [0, 1] [0, 2] [[5, 5], [6, 6]] [(2, [7, 7])]).2 1 =
      some [6, 6] ∧
    bufLookup (reconcile [0, 1] [0, 2] [[5, 5], [6, 6]] [(2, [7, 7])]).2 2 =
      bufLookup [(2, [7, 7])] 2 := by
  have h := C2_amended_reconciliation [0, 1] [0, 2] [[5, 5], [6, 6]] [(2, [7, 7])]
    (by decide) ⟨1, by decide, by decide⟩
  refine ⟨?_, ?_, ?_⟩
  · rw [h.1]; decide
  · exact h.2.1 1 (by decide) (by decide)
  · exact h.2.2 2 (by decide) (by decide)

theorem getD_map_of_lt {α β : Type} (f : α → β) (l : List α) (i : Nat)
    (hi : i < l.length) (d : β) (d' : α) :
    (l.map f).getD i d = f (l.getD i d') := by
  rw [List.getD_eq_getElem (l.map f) d (by simpa using hi), List.getElem_map,
    List.getD_eq_getElem l d' hi]

theorem getD_zip_of_lt {α β : Type} (l : List α) (l2 : List β) (i : Nat)
    (h1 : i < l.length) (h2 : i < l2.length) (d : α × β) (da : α) (db : β) :
    (l.zip l2).getD i d = (l.getD i da, l2.getD i db) := by
  have hz : i < (l.zip l2).length := by
    rw [List.length_zip]
    omega
  rw [List.getD_eq_getElem _ d hz, List.getElem_zip,
    List.getD_eq_getElem l da h1, List.getD_eq_getElem l2 db h2]

/-- C5: with echo off, row i of the emitted tokens equals the post-loop
truncated buffer left-rotated by the row's prompt length L (the first L
entries wrap to the end), the emitted log-prob row equals the truncated
log-prob buffer left-rotated by L - 1, and the generated length is reduced by
L; with echo on the truncated buffers are returned unrotated. -/
theorem C5_echo_rotation (lengths : List Nat) (context_length : Nat)
    (tokens : List Row) (probs : List (List Int)) (gens : List Int) (i L : Nat)
    (hi : i < tokens.length)
    (hlen1 : tokens.length = lengths.length)
    (hlen2 : probs.length = lengths.length)
    (hlen3 : gens.length = lengths.length)
    (hL : lengths.getD i 0 = L)
    (hL1 : 1 ≤ L) (hL2 : L ≤ context_length + 1)
    (hrl : context_length + 1 ≤ (tokens.getD i []).length)
    (hpl : context_length ≤ (probs.getD i []).length) :
    ((postLoopEmit false lengths context_length tokens probs gens).1.getD i [] =
        ((tokens.getD i []).take (context_length + 1)).drop L ++
          ((tokens.getD i []).take (context_length + 1)).take L ∧
      (postLoopEmit false lengths context_length tokens probs gens).2.1.getD i [] =
        ((probs.getD i []).take context_length).drop (L - 1) ++
          ((probs.getD i []).take context_length).take (L - 1) ∧
      (postLoopEmit false lengths context_length tokens probs gens).2.2.getD i 0 =
        gens.getD i 0 - (L : Int)) ∧
    ((postLoopEmit true lengths context_length tokens probs gens).1.getD i [] =
        (tokens.getD i []).take (context_length + 1) ∧
      (postLoopEmit true lengths context_length tokens probs gens).2.1.getD i [] =
        (probs.getD i []).take context_length ∧
      (postLoopEmit true lengths context_length tokens probs gens).2.2 = gens) := by
  have hli : i < lengths.length := by omega
  have hpi : i < probs.length := by omega
  have hgi : i < gens.length := by omega
  have hti : i < (tokens.map (fun row => row.take (context_length + 1))).length := by
    simpa using hi
  have hppi : i < (probs.map (fun row => row.take context_length)).length := by
    simpa using hpi
  have htake : (tokens.map (fun row => row.take (context_length + 1))).getD i [] =
      (tokens.getD i []).take (context_length + 1) :=
    getD_map_of_lt _ tokens i hi [] []
  have hptake : (probs.map (fun row => row.take context_length)).getD i [] =
      (probs.getD i []).take context_length :=
    getD_map_of_lt _ probs i hpi [] []
  have htlen : ((tokens.getD i []).take (context_length + 1)).length =
      context_length + 1 := by
    rw [List.length_take]
    omega
  have hplen : ((probs.getD i []).take context_length).length = context_length := by
    rw [List.length_take]
    omega
  refine ⟨⟨?_, ?_, ?_⟩, ⟨?_, ?_, ?_⟩⟩
  · simp only [postLoopEmit, Bool.false_eq_true, if_false]
    rw [getD_map_of_lt _ _ i (by rw [List.length_zip]; omega) []
        (([] : Row), (0 : Nat)),
      getD_zip_of_lt _ lengths i hti hli (([] : Row), (0 : Nat)) [] 0,
      htake, hL]
    dsimp only
    exact List.rotate_eq_drop_append_take (by omega)
  · simp only [postLoopEmit, Bool.false_eq_true, if_false]
    rw [getD_map_of_lt _ _ i (by rw [List.length_zip]; omega) []
        (([] : List Int), (0 : Nat)),
      getD_zip_of_lt _ lengths i hppi hli (([] : List Int), (0 : Nat)) [] 0,
      hptake, hL]
    dsimp only
    exact List.rotate_eq_drop_append_take (by omega)
  · simp only [postLoopEmit, Bool.false_eq_true, if_false]
    rw [getD_map_of_lt _ _ i (by rw [List.length_zip]; omega) 0
        ((0 : Int), (0 : Nat)),
      getD_zip_of_lt gens lengths i hgi hli ((0 : Int), (0 : Nat)) 0 0,
      hL]
  · simp only [postLoopEmit, if_true]
    exact htake
  · simp only [postLoopEmit, if_true]
    exact hptake
  · simp only [postLoopEmit, if_true]

/-- Witness for C5 at a concrete row: prompt length 2, final context length 3. -/
theorem C5_echo_rotation_witness :
    (postLoopEmit false [2] 3 [[10, 11, 12, 13, 14, 15]] [[20, 21, 22, 23, 24]]
        [5]).1.getD 0 [] = [12, 13] ++ [10, 11] ∧
    (postLoopEmit false [2] 3 [[10, 11, 12, 13, 14, 15]] [[20, 21, 22, 23, 24]]
        [5]).2.1.getD 0 [] = [21, 22] ++ [20] ∧
    (postLoopEmit false [2] 3 [[10, 11, 12, 13, 14, 15]] [[20, 21, 22, 23, 24]]
        [5]).2.2.getD 0 0 = 3 ∧
    (postLoopEmit true [2] 3 [[10, 11, 12, 13, 14, 15]] [[20, 21, 22, 23, 24]]
        [5]).1.getD 0 [] = [10, 11, 12, 13] := by
  have h := C5_echo_rotation [2] 3 [[10, 11, 12, 13, 14, 15]] [[20, 21, 22, 23, 24]]
    [5] 0 2 (by decide) (by decide) (by decide) (by decide) (by decide) (by decide)
    (by decide) (by decide) (by decide)
  refine ⟨?_, ?_, ?_, ?_⟩
  · rw [h.1.1]; decide
  · rw [h.1.2.1]; decide
  · rw [h.1.2.2]; decide
  · rw [h.2.1]; decide

/-- C7 counterexample: with top_k = 1 and top_p = 1 both nonzero and every
other precondition satisfied, the call is rejected only at the first sampling
call: one forward step has already been performed, not zero as the claim
requires. -/
theorem C7_counterexample :
    (generateModel ⟨fun _ _ => 0, [1], [], 9⟩ [[9, 9, 9]]
        true 1 1 1 3 10 10).isError = true ∧
    (generateModel ⟨fun _ _ => 0, [1], [], 9⟩ [[9, 9, 9]]
        true 1 1 1 3 10 10).forward_steps = 1 := by
  constructor <;> decide

/-- C7 amended: a generation call with top_k and top_p both nonzero that
passes the length and token-budget preconditions is not rejected before
stepping; it is rejected at the first sampling call, during the first decoding
step, after exactly one forward step has run, and the error is surfaced to the
caller rather than silently sampling. -/
theorem C7_amended_sampling_rejection (E : GenEnv) (tokens0 : List Row)
    (use_stop : Bool) (top_k : Nat) (top_p : ℚ)
    (batch_size max_sequence_length max_position_embeddings max_tokens_to_oom : Nat)
    (hk : 0 < top_k) (htp : 0 < top_p)
    (h1 : max_sequence_length ≤ max_position_embeddings)
    (h2 : max_sequence_length * batch_size ≤ max_tokens_to_oom)
    (h3 : (E.lengths.min?).getD 0 < max_sequence_length) :
    (generateModel E tokens0 use_stop top_k top_p batch_size max_sequence_length
        max_position_embeddings max_tokens_to_oom).result =
      .error "cannot have both top-k and top-p samplings" ∧
    (generateModel E tokens0 use_stop top_k top_p batch_size max_sequence_length
        max_position_embeddings max_tokens_to_oom).forward_steps = 1 := by
  have hf : max_sequence_length - (E.lengths.min?).getD 0 ≠ 0 := by omega
  obtain ⟨k, hk2⟩ := Nat.exists_eq_succ_of_ne_zero hf
  rw [generateModel, if_neg (by omega), if_neg (by omega)]
  dsimp only
  rw [hk2]
  rw [genLoopFuel]
  rw [if_pos ⟨hk, htp⟩]
  exact ⟨rfl, rfl⟩

/-- Witness for C7 amended at a concrete call with top_k = 1 and top_p = 1. -/
theorem C7_amended_sampling_rejection_witness :
    (generateModel ⟨fun _ _ => 0, [1], [], 9⟩ [[9, 9, 9]]
        true 1 1 1 3 10 10).result =
      .error "cannot have both top-k and top-p samplings" ∧
    (generateModel ⟨fun _ _ => 0, [1], [], 9⟩ [[9, 9, 9]]
        true 1 1 1 3 10 10).forward_steps = 1 :=
  C7_amended_sampling_rejection ⟨fun _ _ => 0, [1], [], 9⟩ [[9, 9, 9]]
    true 1 1 1 3 10 10 (by decide) (by decide) (by decide) (by decide) (by decide)

/-- C3 counterexample: with prompt lengths 1 and 3 (a positive minimum prompt
length, so every forwarded window of every step is nonempty) and a sampler
that always emits the termination id, every started row is done after the
first step (context length 1, where only row 0 has started), but the loop
halts only at context length 3, when the late-starting row has also finished:
the first step at which every started row has emitted the termination id is
not the halting step. -/
theorem C3_counterexample :
    (genLoopFuel ⟨fun _ _ => 7, [1, 3], [], 7⟩ true 1 0 4 1
        (initGenState [[9, 9, 9, 9, 9], [9, 9, 9, 9, 9]] 2 5)).2.1 = 3 ∧
    (foldSteps ⟨fun _ _ => 7, [1, 3], [], 7⟩ 1 1
        (initGenState [[9, 9, 9, 9, 9], [9, 9, 9, 9, 9]] 2 5)).is_generation_done.getD 0
      false = true ∧
    ¬(([1, 3] : List Nat).getD 1 0 ≤ 1) ∧
    (3 : Nat) ≠ 1 := by
  refine ⟨by decide, by decide, by decide, by decide⟩

/-- C3 amended: with stop-token early termination on, valid sampling
parameters and a positive minimum prompt length (so every forwarded window of
every step is nonempty), the decoding loop halts exactly at the first step at
which every
batch row (not only the rows already started) has hit a stop condition; and
each row's generated_sequence_lengths entry equals context_length + 1 of the
step at which that row first hit a stop condition, not of the global stop
step, with rows that never stopped keeping the initial value
max_sequence_length. -/
theorem C3_amended_stopping (E : GenEnv) (tokens0 : List Row)
    (batch_size max_sequence_length min_prompt F : Nat) (top_k : Nat) (top_p : ℚ)
    (hmin : 0 < min_prompt)
    (hs : ¬(0 < top_k ∧ 0 < top_p))
    (hF : (List.range' min_prompt (max_sequence_length - min_prompt)).find?
        (fun c => allDoneAfterStep E tokens0 batch_size max_sequence_length
          min_prompt c) = some F) :
    genLoopFuel E true top_k top_p (max_sequence_length - min_prompt) min_prompt
        (initGenState tokens0 batch_size max_sequence_length) =
      (foldSteps E min_prompt (F + 1 - min_prompt)
        (initGenState tokens0 batch_size max_sequence_length), F, none) ∧
    allDoneAfterStep E tokens0 batch_size max_sequence_length min_prompt F = true ∧
    (∀ c, min_prompt ≤ c → c < F →
      allDoneAfterStep E tokens0 batch_size max_sequence_length min_prompt c =
        false) ∧
    (∀ r, r < batch_size →
      (foldSteps E min_prompt (F + 1 - min_prompt)
          (initGenState tokens0 batch_size
            max_sequence_length)).generated_sequence_lengths.getD r 0 =
        match rowFirstStopStep E min_prompt (F + 1 - min_prompt) r with
        | some c0 => c0 + 1
        | none => max_sequence_length) := by
  have hFr := hF
  simp only [allDoneAfterStep] at hFr
  have hprops := find?_range'_some hFr
  refine ⟨?_, ?_, ?_, ?_⟩
  · have hbridge := genLoop_bridge E top_k top_p hs
      (max_sequence_length - min_prompt) min_prompt
      (initGenState tokens0 batch_size max_sequence_length)
    rw [hFr] at hbridge
    exact hbridge
  · simpa [allDoneAfterStep] using hprops.2.2.1
  · intro c hc1 hc2
    simpa [allDoneAfterStep] using hprops.2.2.2 c hc1 hc2
  · intro r hr
    have hr1 : r < (initGenState tokens0 batch_size
        max_sequence_length).generated_sequence_lengths.length := by
      simpa [initGenState] using hr
    have hr2 : r < (initGenState tokens0 batch_size
        max_sequence_length).is_generation_done.length := by
      simpa [initGenState] using hr
    rw [foldSteps_genlen_getD E (F + 1 - min_prompt) min_prompt _ r hr1 hr2]
    have hd : (initGenState tokens0 batch_size
        max_sequence_length).is_generation_done.getD r false = false := by
      simp [initGenState, getD_replicate']
    have hg : (initGenState tokens0 batch_size
        max_sequence_length).generated_sequence_lengths.getD r 0 =
        max_sequence_length := by
      simp [initGenState, getD_replicate', hr]
    rw [hd]
    simp only [Bool.false_eq_true, if_false]
    rw [hg, rowFirstStopStep]

/-- Witness for C3 amended: prompt lengths 1 and 3, termination id always
emitted; the loop halts at context length 3 and records generated length 2 for
row 0 (stopped at step 1) and 4 for row 1 (stopped at step 3). -/
theorem C3_amended_stopping_witness :
    genLoopFuel ⟨fun _ _ => 7, [1, 3], [], 7⟩ true 1 0 4 1
        (initGenState [[9, 9, 9, 9, 9], [9, 9, 9, 9, 9]] 2 5) =
      (foldSteps ⟨fun _ _ => 7, [1, 3], [], 7⟩ 1 3
        (initGenState [[9, 9, 9, 9, 9], [9, 9, 9, 9, 9]] 2 5), 3, none) ∧
    (foldSteps ⟨fun _ _ => 7, [1, 3], [], 7⟩ 1 3
        (initGenState [[9, 9, 9, 9, 9], [9, 9, 9, 9, 9]]
          2 5)).generated_sequence_lengths.getD 0 0 = 2 ∧
    (foldSteps ⟨fun _ _ => 7, [1, 3], [], 7⟩ 1 3
        (initGenState [[9, 9, 9, 9, 9], [9, 9, 9, 9, 9]]
          2 5)).generated_sequence_lengths.getD 1 0 = 4 := by
  have h := C3_amended_stopping ⟨fun _ _ => 7, [1, 3], [], 7⟩
    [[9, 9, 9, 9, 9], [9, 9, 9, 9, 9]] 2 5 1 3 1 0 (by decide) (by decide) (by decide)
  refine ⟨h.1, ?_, ?_⟩
  · rw [h.2.2.2 0 (by decide)]; decide
  · rw [h.2.2.2 1 (by decide)]; decide

theorem beamWalkAux_spec (stop_token : Token) (beam_size : Nat) :
    ∀ (cands : List BeamCand) (rank : Nat) (hyps : List HypAdd)
      (next_beams : List BeamCand),
      next_beams.length < beam_size →
      beamWalkAux stop_token beam_size cands rank hyps next_beams =
        (hyps ++ ((List.enumFrom rank cands).filter
            (fun p => decide (p.2.token = stop_token) && decide (p.1 < beam_size) &&
              decide (((cands.take (p.1 - rank)).filter
                  (fun c => !decide (c.token = stop_token))).length <
                beam_size - next_beams.length))).map
            (fun p => (⟨p.2.beam, p.2.score⟩ : HypAdd)),
          next_beams ++ (cands.filter
            (fun c => !decide (c.token = stop_token))).take
            (beam_size - next_beams.length)) := by
  intro cands
  induction cands with
  | nil =>
    intro rank hyps next h
    simp [beamWalkAux, List.enumFrom]
  | cons c rest ih =>
    intro rank hyps next h
    rw [List.enumFrom_cons]
    by_cases hstop : c.token = stop_token
    · have hfilters : (List.enumFrom (rank + 1) rest).filter
          (fun p => decide (p.2.token = stop_token) && decide (p.1 < beam_size) &&
            decide ((((c :: rest).take (p.1 - rank)).filter
                (fun x => !decide (x.token = stop_token))).length <
              beam_size - next.length)) =
          (List.enumFrom (rank + 1) rest).filter
          (fun p => decide (p.2.token = stop_token) && decide (p.1 < beam_size) &&
            decide (((rest.take (p.1 - (rank + 1))).filter
                (fun x => !decide (x.token = stop_token))).length <
              beam_size - next.length)) := by
        apply List.filter_congr
        intro p hp
        have hp1 : rank + 1 ≤ p.1 := (List.mem_enumFrom hp).1
        have h2 : p.1 - rank = (p.1 - (rank + 1)) + 1 := by omega
        rw [h2, List.take_succ_cons,
          List.filter_cons_of_neg (by simp [hstop])]
      have hnexts : ((c :: rest).filter
          (fun x => !decide (x.token = stop_token))).take (beam_size - next.length) =
          (rest.filter (fun x => !decide (x.token = stop_token))).take
            (beam_size - next.length) := by
        rw [List.filter_cons_of_neg (by simp [hstop])]
      by_cases hrank : beam_size ≤ rank
      · -- candidate skipped: rank not competitive, continue bypasses the break
        have hLHS : beamWalkAux stop_token beam_size (c :: rest) rank hyps next =
            beamWalkAux stop_token beam_size rest (rank + 1) hyps next := by
          simp only [beamWalkAux]
          rw [if_pos hstop, if_pos hrank]
        rw [hLHS, ih (rank + 1) hyps next h]
        have hhead : (decide (((rank, c) : Nat × BeamCand).2.token = stop_token) &&
            decide (((rank, c) : Nat × BeamCand).1 < beam_size) &&
            decide ((((c :: rest).take (((rank, c) : Nat × BeamCand).1 - rank)).filter
                (fun x => !decide (x.token = stop_token))).length <
              beam_size - next.length)) = false := by
          simp [Nat.not_lt.mpr hrank]
        rw [List.filter_cons_of_neg (by rw [hhead]; simp), hfilters, hnexts]
      · -- candidate finalized into the pool
        have hrank2 : rank < beam_size := Nat.lt_of_not_le hrank
        have hne : ¬(next.length = beam_size) := Nat.ne_of_lt h
        have hLHS : beamWalkAux stop_token beam_size (c :: rest) rank hyps next =
            beamWalkAux stop_token beam_size rest (rank + 1)
              (hyps ++ [⟨c.beam, c.score⟩]) next := by
          simp only [beamWalkAux]
          rw [if_pos hstop, if_neg hrank, if_neg hne]
        rw [hLHS, ih (rank + 1) _ next h]
        have hhead : (decide (((rank, c) : Nat × BeamCand).2.token = stop_token) &&
            decide (((rank, c) : Nat × BeamCand).1 < beam_size) &&
            decide ((((c :: rest).take (((rank, c) : Nat × BeamCand).1 - rank)).filter
                (fun x => !decide (x.token = stop_token))).length <
              beam_size - next.length)) = true := by
          have h0 : (((rank, c) : Nat × BeamCand).1 - rank) = 0 := by omega
          simp [hstop, hrank2, h0]
          omega
        rw [List.filter_cons_of_pos (by rw [hhead]), List.map_cons, hfilters, hnexts,
          List.append_assoc, List.singleton_append]
    · by_cases hbreak : next.length + 1 = beam_size
      · -- the appended continuation fills the quota: the walk breaks
        have hLHS : beamWalkAux stop_token beam_size (c :: rest) rank hyps next =
            (hyps, next ++ [c]) := by
          simp only [beamWalkAux]
          rw [if_neg hstop, if_pos (by simpa using hbreak)]
        rw [hLHS]
        have hq : beam_size - next.length = 1 := by omega
        have hhead : (decide (((rank, c) : Nat × BeamCand).2.token = stop_token) &&
            decide (((rank, c) : Nat × BeamCand).1 < beam_size) &&
            decide ((((c :: rest).take (((rank, c) : Nat × BeamCand).1 - rank)).filter
                (fun x => !decide (x.token = stop_token))).length <
              beam_size - next.length)) = false := by
          simp [hstop]
        have htail : (List.enumFrom (rank + 1) rest).filter
            (fun p => decide (p.2.token = stop_token) && decide (p.1 < beam_size) &&
              decide ((((c :: rest).take (p.1 - rank)).filter
                  (fun x => !decide (x.token = stop_token))).length <
                beam_size - next.length)) = [] := by
          rw [List.filter_eq_nil_iff]
          intro p hp
          have hp1 : rank + 1 ≤ p.1 := (List.mem_enumFrom hp).1
          have h2 : p.1 - rank = (p.1 - (rank + 1)) + 1 := by omega
          rw [h2, List.take_succ_cons,
            List.filter_cons_of_pos (by simp [hstop]), List.length_cons, hq]
          simp
        have hnexts : ((c :: rest).filter
            (fun x => !decide (x.token = stop_token))).take (beam_size - next.length) =
            [c] := by
          rw [List.filter_cons_of_pos (by simp [hstop]), hq, List.take_succ_cons,
            List.take_zero]
        rw [List.filter_cons_of_neg (by rw [hhead]; simp), htail, hnexts]
        simp
      · -- the appended continuation leaves room: the walk goes on
        have hlt : (next ++ [c]).length < beam_size := by
          rw [List.length_append, List.length_singleton]
          omega
        have hLHS : beamWalkAux stop_token beam_size (c :: rest) rank hyps next =
            beamWalkAux stop_token beam_size rest (rank + 1) hyps (next ++ [c]) := by
          simp only [beamWalkAux]
          rw [if_neg hstop, if_neg (by simpa using hbreak)]
        rw [hLHS, ih (rank + 1) hyps (next ++ [c]) hlt]
        have hhead : (decide (((rank, c) : Nat × BeamCand).2.token = stop_token) &&
            decide (((rank, c) : Nat × BeamCand).1 < beam_size) &&
            decide ((((c :: rest).take (((rank, c) : Nat × BeamCand).1 - rank)).filter
                (fun x => !decide (x.token = stop_token))).length <
              beam_size - next.length)) = false := by
          simp [hstop]
        have hfilters : (List.enumFrom (rank + 1) rest).filter
            (fun p => decide (p.2.token = stop_token) && decide (p.1 < beam_size) &&
              decide (((rest.take (p.1 - (rank + 1))).filter
                  (fun x => !decide (x.token = stop_token))).length <
                beam_size - (next ++ [c]).length)) =
            (List.enumFrom (rank + 1) rest).filter
            (fun p => decide (p.2.token = stop_token) && decide (p.1 < beam_size) &&
              decide ((((c :: rest).take (p.1 - rank)).filter
                  (fun x => !decide (x.token = stop_token))).length <
                beam_size - next.length)) := by
          apply List.filter_congr
          intro p hp
          have hp1 : rank + 1 ≤ p.1 := (List.mem_enumFrom hp).1
          have h2 : p.1 - rank = (p.1 - (rank + 1)) + 1 := by omega
          rw [h2, List.take_succ_cons,
            List.filter_cons_of_pos (by simp [hstop]), List.length_cons,
            List.length_append, List.length_singleton]
          congr 1
          rw [decide_eq_decide]
          omega
        have hnexts : (next ++ [c]) ++ (rest.filter
            (fun x => !decide (x.token = stop_token))).take
              (beam_size - (next ++ [c]).length) =
            next ++ ((c :: rest).filter
              (fun x => !decide (x.token = stop_token))).take
              (beam_size - next.length) := by
          rw [List.filter_cons_of_pos (by simp [hstop])]
          obtain ⟨m, hm⟩ : ∃ m, beam_size - next.length = m + 1 :=
            ⟨beam_size - next.length - 1, by omega⟩
          have hm2 : beam_size - (next ++ [c]).length = m := by
            rw [List.length_append, List.length_singleton]
            omega
          rw [hm, hm2, List.take_succ_cons, List.append_assoc,
            List.singleton_append]
        rw [hfilters, List.filter_cons_of_neg (by rw [hhead]; simp), hnexts]

/-- C9: at each beam-search step the selected candidates are at most
2 * beam_size (score, token, source beam) triples in descending score order,
on the first step drawn only from beam 0's vocabulary row; walking them in
order, the live continuations are exactly the first beam_size candidates whose
token is not the stop token, and the hypothesis-pool additions are exactly the
stop-token candidates whose rank is below beam_size and that are reached
before beam_size live continuations have been collected. -/
theorem C9_beam_candidate_walk (new_scores : List (List Int))
    (vocab_size beam_size : Nat) (is_first : Bool) (stop_token : Token)
    (hk : 0 < beam_size)
    (hvocab : (new_scores.getD 0 []).length ≤ vocab_size) :
    (beamSelect new_scores vocab_size beam_size is_first).length ≤ 2 * beam_size ∧
    List.Pairwise (fun a b : BeamCand => b.score ≤ a.score)
      (beamSelect new_scores vocab_size beam_size is_first) ∧
    (is_first = true →
      ∀ c ∈ beamSelect new_scores vocab_size beam_size is_first, c.beam = 0) ∧
    (beamWalk stop_token beam_size
        (beamSelect new_scores vocab_size beam_size is_first)).2 =
      ((beamSelect new_scores vocab_size beam_size is_first).filter
        (fun c => !decide (c.token = stop_token))).take beam_size ∧
    (beamWalk stop_token beam_size
        (beamSelect new_scores vocab_size beam_size is_first)).1 =
      ((beamSelect new_scores vocab_size beam_size is_first).enum.filter
          (fun p => decide (p.2.token = stop_token) && decide (p.1 < beam_size) &&
            decide ((((beamSelect new_scores vocab_size beam_size is_first).take
                p.1).filter (fun c => !decide (c.token = stop_token))).length <
              beam_size))).map
        (fun p => (⟨p.2.beam, p.2.score⟩ : HypAdd)) := by
  have htrans : ∀ (a b c : Int × Nat),
      (fun x y : Int × Nat => decide (y.1 ≤ x.1)) a b = true →
      (fun x y : Int × Nat => decide (y.1 ≤ x.1)) b c = true →
      (fun x y : Int × Nat => decide (y.1 ≤ x.1)) a c = true := by
    intro a b c h1 h2
    simp only [decide_eq_true_eq] at h1 h2 ⊢
    exact le_trans h2 h1
  have htotal : ∀ (a b : Int × Nat),
      ((fun x y : Int × Nat => decide (y.1 ≤ x.1)) a b ||
        (fun x y : Int × Nat => decide (y.1 ≤ x.1)) b a) = true := by
    intro a b
    rcases le_total a.1 b.1 with h | h <;> simp [h]
  refine ⟨?_, ?_, ?_, ?_, ?_⟩
  · simp only [beamSelect, List.length_map, List.length_take]
    exact Nat.min_le_left _ _
  · simp only [beamSelect]
    rw [List.pairwise_map]
    apply List.Pairwise.sublist (List.take_sublist _ _)
    exact (List.sorted_mergeSort htrans htotal _).imp (by
      intro a b hab
      simpa using hab)
  · intro hfirst c hc
    simp only [beamSelect, hfirst, if_true] at hc
    rcases List.mem_map.mp hc with ⟨p, hp, rfl⟩
    have hp2 : p ∈ ((new_scores.getD 0 []).enum.map
        (fun q => (q.2, q.1))).mergeSort (fun a b : Int × Nat => decide (b.1 ≤ a.1)) :=
      List.mem_of_mem_take hp
    have hp3 : p ∈ (new_scores.getD 0 []).enum.map (fun q => (q.2, q.1)) :=
      (List.mergeSort_perm _ _).mem_iff.mp hp2
    rcases List.mem_map.mp hp3 with ⟨q, hq, rfl⟩
    rw [List.enum_eq_enumFrom] at hq
    have hq2 : q.1 < (new_scores.getD 0 []).length := by
      have h1 := (List.mem_enumFrom hq).2.1
      omega
    show (q.2, q.1).2 / vocab_size = 0
    exact Nat.div_eq_of_lt (by omega)
  · have hw := beamWalkAux_spec stop_token beam_size
      (beamSelect new_scores vocab_size beam_size is_first) 0 [] [] (by simpa using hk)
    rw [beamWalk, hw]
    simp
  · have hw := beamWalkAux_spec stop_token beam_size
      (beamSelect new_scores vocab_size beam_size is_first) 0 [] [] (by simpa using hk)
    rw [beamWalk, hw, List.enum_eq_enumFrom]
    simp

/-- Witness for C9 at a concrete two-beam score matrix with stop token 0. -/
theorem C9_beam_candidate_walk_witness :
    (beamWalk 0 2 (beamSelect [[3, 1, 2], [5, 0, 4]] 3 2 false)).2 =
      ((beamSelect [[3, 1, 2], [5, 0, 4]] 3 2 false).filter
        (fun c => !decide (c.token = 0))).take 2 ∧
    (beamWalk 0 2 (beamSelect [[3, 1, 2], [5, 0, 4]] 3 2 false)).1 =
      ((beamSelect [[3, 1, 2], [5, 0, 4]] 3 2 false).enum.filter
          (fun p => decide (p.2.token = 0) && decide (p.1 < 2) &&
            decide ((((beamSelect [[3, 1, 2], [5, 0, 4]] 3 2 false).take
                p.1).filter (fun c => !decide (c.token = 0))).length < 2))).map
        (fun p => (⟨p.2.beam, p.2.score⟩ : HypAdd)) ∧
    (∀ c ∈ beamSelect [[3, 1, 2], [5, 0, 4]] 3 2 true, c.beam = 0) := by
  have h := C9_beam_candidate_walk [[3, 1, 2], [5, 0, 4]] 3 2 false 0
    (by decide) (by decide)
  have h2 := C9_beam_candidate_walk [[3, 1, 2], [5, 0, 4]] 3 2 true 0
    (by decide) (by decide)
  exact ⟨h.2.2.2.1, h.2.2.2.2, h2.2.2.1 rfl⟩

end EELLM
